import Mathlib

/-!
# Verification of `chain-map-rs` (`src/lib.rs`)

A shallow embedding of the `ChainMap` crate: a chain of hash maps queried in
precedence order (index 0 = highest precedence).  A Rust `HashMap` is embedded
as a list of key-value entries; its lookup operations return the first entry
whose key matches (a real `HashMap` keeps keys distinct, so "first match" is
the unique match; none of the verified properties depend on key distinctness
inside a layer).  The `ChainMap` operations are translated line by line from
`src/lib.rs`.
-/

namespace ChainMapRs

/-- Embedding of Rust's `std::collections::HashMap<K, V>` as viewed through the
operations `lib.rs` uses: `get`, `contains_key`, `get_key_value`, and
`PartialEq::eq`.  The entry list of a real `HashMap` has pairwise-distinct
keys; lookups return the (first) entry whose key equals the query. -/
structure HashMap (K : Type) (V : Type) where
  entries : List (K × V)
deriving DecidableEq

variable {K V : Type}

/-- `HashMap::contains_key`: whether some entry has the queried key. -/
def HashMap.contains_key [DecidableEq K] (m : HashMap K V) (k : K) : Bool :=
  m.entries.any (fun p => decide (p.1 = k))

/-- `HashMap::get`: the value of the entry whose key equals `k`, if any. -/
def HashMap.get [DecidableEq K] (m : HashMap K V) (k : K) : Option V :=
  (m.entries.find? (fun p => decide (p.1 = k))).map Prod.snd

/-- `HashMap::get_key_value`: the stored key together with its value. -/
def HashMap.get_key_value [DecidableEq K] (m : HashMap K V) (k : K) :
    Option (K × V) :=
  m.entries.find? (fun p => decide (p.1 = k))

/-- `HashMap as PartialEq`: equal lengths and every entry of `self` is present
with an equal value in `other` (Rust's `impl PartialEq for HashMap`). -/
def HashMap.eqv [DecidableEq K] [DecidableEq V] (m1 m2 : HashMap K V) : Bool :=
  m1.entries.length == m2.entries.length &&
  m1.entries.all (fun p =>
    match m2.get p.1 with
    | some w => decide (p.2 = w)
    | none => false)

/-- `pub struct ChainMap<K, V, S> { inner: Vec<HashMap<K, V, S>> }`
(lib.rs line 59).  The hasher parameter `S` has no observable effect and is
not represented. -/
structure ChainMap (K : Type) (V : Type) where
  inner : List (HashMap K V)
deriving DecidableEq

/-- `impl Default for ChainMap` (lib.rs line 220): an empty chain. -/
def ChainMap.default : ChainMap K V := ⟨[]⟩

/-- `ChainMap::new` (lib.rs line 77): defined as `Self::default()`. -/
def ChainMap.new : ChainMap K V := ChainMap.default

/-- `ChainMap::with_capacity` (lib.rs line 94): an empty chain whose backing
`Vec` preallocates room for `capacity` maps.  Capacity is a pure allocation
hint with no observable content, so it is not represented in the state. -/
def ChainMap.with_capacity (capacity : Nat) : ChainMap K V := ⟨[]⟩

/-- `ChainMap::push_map` (lib.rs line 120): `self.inner.push(map)`, appending
at the low-precedence end. -/
def ChainMap.push_map (c : ChainMap K V) (map : HashMap K V) : ChainMap K V :=
  ⟨c.inner ++ [map]⟩

/-- `ChainMap::contains_key` (lib.rs line 151):
`self.inner.iter().any(|map| map.contains_key(k))`. -/
def ChainMap.contains_key [DecidableEq K] (c : ChainMap K V) (k : K) : Bool :=
  c.inner.any (fun m => m.contains_key k)

/-- `ChainMap::get` (lib.rs line 180):
`self.inner.iter().find_map(|map| map.get(k))`. -/
def ChainMap.get [DecidableEq K] (c : ChainMap K V) (k : K) : Option V :=
  c.inner.findSome? (fun m => m.get k)

/-- `ChainMap::get_key_value` (lib.rs line 210):
`self.inner.iter().find_map(|map| map.get_key_value(k))`. -/
def ChainMap.get_key_value [DecidableEq K] (c : ChainMap K V) (k : K) :
    Option (K × V) :=
  c.inner.findSome? (fun m => m.get_key_value k)

/-- Result of a Rust call that may halt the program: either a value or an
unrecoverable failure carrying the message passed to `Option::expect`. -/
inductive PanicResult (α : Type) where
  | ok (a : α)
  | panicked (msg : String)
deriving DecidableEq

/-- Rust's `Option::expect`: the wrapped value, or an unrecoverable failure
with the given message when the option is `None`. -/
def expectMsg {α : Type} (o : Option α) (msg : String) : PanicResult α :=
  match o with
  | some a => .ok a
  | none => .panicked msg

/-- `impl Index for ChainMap` (lib.rs line 233):
`self.get(k).expect("no entry found for key")`. -/
def ChainMap.index [DecidableEq K] (c : ChainMap K V) (k : K) : PanicResult V :=
  expectMsg (c.get k) "no entry found for key"

/-- `impl FromIterator for ChainMap` (lib.rs line 238): the chain whose layer
sequence is the input sequence, in order. -/
def ChainMap.from_iter (ms : List (HashMap K V)) : ChainMap K V := ⟨ms⟩

/-- `impl Extend for ChainMap` (lib.rs line 249): `self.inner.extend(iter)`,
appending the input layers in order at the low-precedence end. -/
def ChainMap.extend (c : ChainMap K V) (ms : List (HashMap K V)) :
    ChainMap K V :=
  ⟨c.inner ++ ms⟩

/-- `impl PartialEq for ChainMap` (lib.rs line 264): `self.inner.eq(&other.inner)`,
i.e. slice equality of the two `Vec<HashMap>`: equal lengths and pairwise
`HashMap` equality at corresponding positions. -/
def ChainMap.eqv [DecidableEq K] [DecidableEq V] (c1 c2 : ChainMap K V) : Bool :=
  c1.inner.length == c2.inner.length &&
  (c1.inner.zip c2.inner).all (fun p => HashMap.eqv p.1 p.2)

/-- Modelled from the spec: `insert_map(index, map)` appears in the spec
(section 4.2) but is absent from `src/lib.rs`.  Following the spec's words,
it "inserts `map` at `index`, shifting all layers previously at `index` and
beyond one position toward lower precedence", and requires
`0 <= index <= length`; an out-of-range index is a contract violation
(modelled as `none`, i.e. no resulting chain). -/
def ChainMap.insert_map (c : ChainMap K V) (index : Nat) (map : HashMap K V) :
    Option (ChainMap K V) :=
  if index ≤ c.inner.length then
    some ⟨c.inner.take index ++ map :: c.inner.drop index⟩
  else
    none

/-- Exchange the layers at positions `i` and `j` of the chain (used to state
the order-sensitivity of chain equality).  Out-of-range positions leave the
chain unchanged, as with `List.set`. -/
def ChainMap.swap (c : ChainMap K V) (i j : Nat) : ChainMap K V :=
  ⟨(c.inner.set i (c.inner.getD j ⟨[]⟩)).set j (c.inner.getD i ⟨[]⟩)⟩

/-! ## Concrete layers and chains used by witnesses -/

/-- Highest-precedence layer of the test chain: `{0 ↦ 1}`. -/
def mapA0 : HashMap Nat Nat := ⟨[(0, 1)]⟩

/-- Second layer of the test chain: `{0 ↦ 10, 1 ↦ 2}`. -/
def mapA1 : HashMap Nat Nat := ⟨[(0, 10), (1, 2)]⟩

/-- A two-layer chain: key 0 is shadowed by the first layer. -/
def chainA : ChainMap Nat Nat := ⟨[mapA0, mapA1]⟩

/-- `{0 ↦ 1}`: shares key 0 with `mapB2`, mapping it to the same value. -/
def mapB1 : HashMap Nat Nat := ⟨[(0, 1)]⟩

/-- `{0 ↦ 1, 1 ↦ 2}`: a strict superset of `mapB1`. -/
def mapB2 : HashMap Nat Nat := ⟨[(0, 1), (1, 2)]⟩

/-! ## Helper lemmas -/

/-- On one layer, membership agrees with the entry search: `contains_key` is
the `isSome` of `get_key_value`. -/
theorem HashMap.contains_key_eq_isSome_get_key_value [DecidableEq K]
    (m : HashMap K V) (k : K) :
    m.contains_key k = (m.get_key_value k).isSome := by
  rw [HashMap.contains_key, HashMap.get_key_value]
  induction m.entries with
  | nil => rfl
  | cons p t ih =>
    cases h : decide (p.1 = k) with
    | true => simp [List.find?_cons, h]
    | false => simpa [List.find?_cons, h] using ih

/-- On one layer, `get` is the value component of `get_key_value`. -/
theorem HashMap.get_eq_map_get_key_value [DecidableEq K]
    (m : HashMap K V) (k : K) :
    m.get k = (m.get_key_value k).map Prod.snd := rfl

/-- On one layer, membership agrees with the value lookup. -/
theorem HashMap.contains_key_eq_isSome_get [DecidableEq K]
    (m : HashMap K V) (k : K) :
    m.contains_key k = (m.get k).isSome := by
  rw [HashMap.contains_key_eq_isSome_get_key_value,
    HashMap.get_eq_map_get_key_value]
  cases m.get_key_value k <;> rfl

/-- A layer reporting no membership resolves no value. -/
theorem HashMap.get_eq_none_of_not_contains [DecidableEq K]
    {m : HashMap K V} {k : K} (h : m.contains_key k = false) :
    m.get k = none := by
  rw [HashMap.contains_key_eq_isSome_get] at h
  exact Option.not_isSome_iff_eq_none.mp (by simp [h])

/-- A layer reporting no membership resolves no entry. -/
theorem HashMap.get_key_value_eq_none_of_not_contains [DecidableEq K]
    {m : HashMap K V} {k : K} (h : m.contains_key k = false) :
    m.get_key_value k = none := by
  rw [HashMap.contains_key_eq_isSome_get_key_value] at h
  exact Option.not_isSome_iff_eq_none.mp (by simp [h])

/-- The entry found by `get_key_value` carries a stored key equal to the
lookup key. -/
theorem HashMap.get_key_value_fst [DecidableEq K]
    {m : HashMap K V} {k : K} {p : K × V} (h : m.get_key_value k = some p) :
    p.1 = k := by
  have h' : m.entries.find? (fun q => decide (q.1 = k)) = some p := h
  have hp := List.find?_some h'
  exact of_decide_eq_true hp

/-- `findSome?` resolves to the image of the first element whose image is
non-`none`. -/
theorem findSome?_eq_of_first {α β : Type} {f : α → Option β} :
    ∀ (l : List α) (i : Nat) (a : α), l[i]? = some a →
      (∀ j b, j < i → l[j]? = some b → f b = none) →
      (f a).isSome = true → l.findSome? f = f a
  | [], i, a, ha, _, _ => by simp at ha
  | x :: t, 0, a, ha, _, hsome => by
    rw [List.getElem?_cons_zero, Option.some_inj] at ha
    subst ha
    exact List.findSome?_cons_of_isSome t hsome
  | x :: t, i + 1, a, ha, hmin, hsome => by
    rw [List.getElem?_cons_succ] at ha
    have hx : f x = none := hmin 0 x (Nat.succ_pos i) List.getElem?_cons_zero
    rw [List.findSome?_cons_of_isNone t (by simp [hx])]
    exact findSome?_eq_of_first t i a ha
      (fun j b hj hb => hmin (j + 1) b (Nat.succ_lt_succ hj)
        (by rwa [List.getElem?_cons_succ])) hsome

/-- Chain membership agrees with the chain value lookup. -/
theorem ChainMap.chain_contains_eq_isSome_get [DecidableEq K]
    (c : ChainMap K V) (k : K) :
    c.contains_key k = (c.get k).isSome := by
  rw [ChainMap.contains_key, ChainMap.get]
  induction c.inner with
  | nil => rfl
  | cons m t ih =>
    cases h : m.contains_key k with
    | true =>
      have hs : ((fun m => HashMap.get m k) m).isSome := by
        rw [← HashMap.contains_key_eq_isSome_get, h]
      rw [List.any_cons, h, Bool.true_or,
        List.findSome?_cons_of_isSome t hs, ← HashMap.contains_key_eq_isSome_get, h]
    | false =>
      have hn : ((fun m => HashMap.get m k) m).isNone := by
        have := HashMap.get_eq_none_of_not_contains h
        simp [this]
      rw [List.any_cons, h, Bool.false_or,
        List.findSome?_cons_of_isNone t hn, ih]

/-- Chain membership agrees with the chain entry lookup. -/
theorem ChainMap.chain_contains_eq_isSome_get_key_value [DecidableEq K]
    (c : ChainMap K V) (k : K) :
    c.contains_key k = (c.get_key_value k).isSome := by
  rw [ChainMap.contains_key, ChainMap.get_key_value]
  induction c.inner with
  | nil => rfl
  | cons m t ih =>
    cases h : m.contains_key k with
    | true =>
      have hs : ((fun m => HashMap.get_key_value m k) m).isSome := by
        rw [← HashMap.contains_key_eq_isSome_get_key_value, h]
      rw [List.any_cons, h, Bool.true_or,
        List.findSome?_cons_of_isSome t hs,
        ← HashMap.contains_key_eq_isSome_get_key_value, h]
    | false =>
      have hn : ((fun m => HashMap.get_key_value m k) m).isNone := by
        have := HashMap.get_key_value_eq_none_of_not_contains h
        simp [this]
      rw [List.any_cons, h, Bool.false_or,
        List.findSome?_cons_of_isNone t hn, ih]

/-- Folding `push_map` over a list of maps appends them all, in order, at the
low-precedence end. -/
theorem foldl_push_map (c : ChainMap K V) (ms : List (HashMap K V)) :
    ms.foldl ChainMap.push_map c = ⟨c.inner ++ ms⟩ := by
  induction ms generalizing c with
  | nil => cases c; simp
  | cons m t ih =>
    rw [List.foldl_cons, ih]
    simp [ChainMap.push_map]

/-- `get` after `push_map`: the old chain is consulted first, the new
lowest-precedence layer last. -/
theorem ChainMap.get_push_map [DecidableEq K] (c : ChainMap K V)
    (m : HashMap K V) (k : K) :
    (c.push_map m).get k = (c.get k).or (m.get k) := by
  rw [ChainMap.get, ChainMap.get, ChainMap.push_map]
  show (c.inner ++ [m]).findSome? (fun m => HashMap.get m k) = _
  rw [List.findSome?_append]
  have hsingle : List.findSome? (fun m => HashMap.get m k) [m] = m.get k := by
    cases hm : m.get k with
    | some v =>
      have h := List.findSome?_cons_of_isSome (f := fun m => HashMap.get m k)
        (a := m) [] (by simp [hm])
      simp [hm]
    | none =>
      have h := List.findSome?_cons_of_isNone (f := fun m => HashMap.get m k)
        (a := m) [] (by simp [hm])
      simp [hm]
  rw [hsingle]

/-! ## Claims -/

/-- C1: for every chain and every lookup key `k` contained in at least one
layer, `get k` returns the value stored for `k` in the lowest-indexed
(highest-precedence) layer that contains `k`, regardless of what
higher-indexed layers map `k` to. -/
theorem claim1_get_precedence [DecidableEq K] (c : ChainMap K V) (k : K)
    (i : Nat) (mi : HashMap K V)
    (hmi : c.inner[i]? = some mi)
    (hc : mi.contains_key k = true)
    (hmin : ∀ j mj, j < i → c.inner[j]? = some mj → mj.contains_key k = false) :
    c.get k = mi.get k ∧ (c.get k).isSome = true := by
  have hs : (mi.get k).isSome = true := by
    rw [← HashMap.contains_key_eq_isSome_get, hc]
  have he : c.get k = mi.get k := by
    rw [ChainMap.get]
    exact findSome?_eq_of_first c.inner i mi hmi
      (fun j mj hj hmj => HashMap.get_eq_none_of_not_contains (hmin j mj hj hmj))
      hs
  exact ⟨he, he ▸ hs⟩

/-- Witness for C1 on the chain `[{0 ↦ 1}, {0 ↦ 10, 1 ↦ 2}]` at key 1, whose
first containing layer is at index 1. -/
theorem claim1_get_precedence_witness :
    chainA.get 1 = mapA1.get 1 ∧ (chainA.get 1).isSome = true := by
  refine claim1_get_precedence chainA 1 1 mapA1 rfl (by decide) ?hmin
  intro j mj hj hmj
  have hj0 : j = 0 := by omega
  subst hj0
  have hm : mj = mapA0 := by
    have h0 : (some mapA0 : Option (HashMap Nat Nat)) = some mj := hmj
    exact (Option.some_inj.mp h0).symm
  subst hm
  decide

/-- C2: a key absent from every layer is reported absent by all three lookup
operations, and the empty chain (from `new` or `default`) reports every key
absent. -/
theorem claim2_absence [DecidableEq K] (c : ChainMap K V) (k : K)
    (h : ∀ m ∈ c.inner, m.contains_key k = false) :
    c.contains_key k = false ∧ c.get k = none ∧ c.get_key_value k = none ∧
    (ChainMap.new : ChainMap K V).contains_key k = false ∧
    (ChainMap.new : ChainMap K V).get k = none ∧
    (ChainMap.new : ChainMap K V).get_key_value k = none ∧
    (ChainMap.default : ChainMap K V) = ChainMap.new := by
  have hck : c.contains_key k = false := by
    rw [ChainMap.contains_key]
    simp only [List.any_eq_false]
    intro m hm
    simp [h m hm]
  refine ⟨hck, ?_, ?_, rfl, rfl, rfl, rfl⟩
  · have hiso := ChainMap.chain_contains_eq_isSome_get c k
    rw [hck] at hiso
    exact Option.not_isSome_iff_eq_none.mp (by simp [← hiso])
  · have hiso := ChainMap.chain_contains_eq_isSome_get_key_value c k
    rw [hck] at hiso
    exact Option.not_isSome_iff_eq_none.mp (by simp [← hiso])

/-- Witness for C2: key 5 is absent from both layers of `chainA`. -/
theorem claim2_absence_witness :
    chainA.contains_key 5 = false ∧ chainA.get 5 = none ∧
    chainA.get_key_value 5 = none ∧
    (ChainMap.new : ChainMap Nat Nat).contains_key 5 = false ∧
    (ChainMap.new : ChainMap Nat Nat).get 5 = none ∧
    (ChainMap.new : ChainMap Nat Nat).get_key_value 5 = none ∧
    (ChainMap.default : ChainMap Nat Nat) = ChainMap.new := by
  refine claim2_absence chainA 5 ?h
  intro m hm
  have hm2 : m = mapA0 ∨ m = mapA1 := by simpa [chainA] using hm
  rcases hm2 with rfl | rfl <;> decide

/-- C4: `chain[k]` returns exactly the value `get k` resolves to when that is
non-absent, and is an unrecoverable panic (with the message
`"no entry found for key"`) exactly when `get k` is absent. -/
theorem claim4_index_panics [DecidableEq K] (c : ChainMap K V) (k : K) :
    (∀ v, c.get k = some v → c.index k = PanicResult.ok v) ∧
    (c.get k = none ↔
      c.index k = PanicResult.panicked "no entry found for key") := by
  refine ⟨fun v hv => by rw [ChainMap.index, hv]; rfl, ?_, ?_⟩
  · intro hv
    rw [ChainMap.index, hv]
    rfl
  · intro hp
    cases hv : c.get k with
    | none => rfl
    | some v =>
      rw [ChainMap.index, hv] at hp
      exact absurd hp (by simp [expectMsg])

/-- Witness for C4: indexing `chainA` at the present key 0 yields its value,
and indexing the empty chain at key 0 panics. -/
theorem claim4_index_panics_witness :
    chainA.index 0 = PanicResult.ok 1 ∧
    (ChainMap.new : ChainMap Nat Nat).index 0
      = PanicResult.panicked "no entry found for key" :=
  ⟨(claim4_index_panics chainA 0).1 1 rfl,
   (claim4_index_panics (ChainMap.new : ChainMap Nat Nat) 0).2.mp rfl⟩

/-- C3: `extend` on chain `C` yields the very same chain as the corresponding
sequence of `push_map` calls, hence the same observable lookup results, the
new layers being appended at the low-precedence end in the input's order. -/
theorem claim3_extend_eq_pushes [DecidableEq K] (c : ChainMap K V)
    (ms : List (HashMap K V)) :
    c.extend ms = ms.foldl ChainMap.push_map c ∧
    (c.extend ms).inner = c.inner ++ ms ∧
    ∀ k, (c.extend ms).contains_key k
           = (ms.foldl ChainMap.push_map c).contains_key k ∧
         (c.extend ms).get k = (ms.foldl ChainMap.push_map c).get k ∧
         (c.extend ms).get_key_value k
           = (ms.foldl ChainMap.push_map c).get_key_value k := by
  have he : c.extend ms = ms.foldl ChainMap.push_map c := by
    rw [foldl_push_map]
    rfl
  exact ⟨he, rfl, fun k => ⟨by rw [he], by rw [he], by rw [he]⟩⟩

/-- `{0 ↦ 2}`: disagrees with `mapB1` about the value of the shared key 0. -/
def mapC2 : HashMap Nat Nat := ⟨[(0, 2)]⟩

/-- C5 (amended): pushed layers never override values already resolvable, and
push order is observable whenever the two maps disagree on a shared key that
the base chain does not already contain. -/
theorem claim5_push_map_order [DecidableEq K] (c : ChainMap K V)
    (m1 m2 : HashMap K V) (k : K) (v1 v2 : V)
    (hc : c.get k = none) (h1 : m1.get k = some v1) (h2 : m2.get k = some v2)
    (hne : v1 ≠ v2) :
    (∀ m k2 v, c.get k2 = some v → (c.push_map m).get k2 = some v) ∧
    ((c.push_map m1).push_map m2).get k = some v1 ∧
    ((c.push_map m2).push_map m1).get k = some v2 ∧
    ((c.push_map m1).push_map m2).get k
      ≠ ((c.push_map m2).push_map m1).get k := by
  have ha : ((c.push_map m1).push_map m2).get k = some v1 := by
    rw [ChainMap.get_push_map, ChainMap.get_push_map, hc, h1]
    rfl
  have hb : ((c.push_map m2).push_map m1).get k = some v2 := by
    rw [ChainMap.get_push_map, ChainMap.get_push_map, hc, h2]
    rfl
  refine ⟨fun m k2 v hv => by rw [ChainMap.get_push_map, hv]; rfl, ha, hb, ?_⟩
  rw [ha, hb]
  exact fun hEq => hne (Option.some_inj.mp hEq)

/-- Witness for C5 (amended): on the empty chain, pushing `{0 ↦ 1}` and
`{0 ↦ 2}` in the two orders yields observably different chains. -/
theorem claim5_push_map_order_witness :
    (∀ m k2 v, (ChainMap.new : ChainMap Nat Nat).get k2 = some v →
      (ChainMap.new.push_map m).get k2 = some v) ∧
    ((ChainMap.new.push_map mapB1).push_map mapC2).get 0 = some 1 ∧
    ((ChainMap.new.push_map mapC2).push_map mapB1).get 0 = some 2 ∧
    ((ChainMap.new.push_map mapB1).push_map mapC2).get 0
      ≠ ((ChainMap.new.push_map mapC2).push_map mapB1).get 0 :=
  claim5_push_map_order ChainMap.new mapB1 mapC2 0 1 2 rfl rfl rfl (by decide)

/-- Counterexample to C5 as stated: `mapB1 = {0 ↦ 1}` and
`mapB2 = {0 ↦ 1, 1 ↦ 2}` are different maps sharing key 0, yet pushing them
onto the empty chain in either order gives observably identical results for
every key. -/
theorem claim5_counterexample :
    mapB1.contains_key 0 = true ∧ mapB2.contains_key 0 = true ∧
    mapB1 ≠ mapB2 ∧
    ∀ k : Nat,
      ((ChainMap.new.push_map mapB1).push_map mapB2).contains_key k
        = ((ChainMap.new.push_map mapB2).push_map mapB1).contains_key k ∧
      ((ChainMap.new.push_map mapB1).push_map mapB2).get k
        = ((ChainMap.new.push_map mapB2).push_map mapB1).get k ∧
      ((ChainMap.new.push_map mapB1).push_map mapB2).get_key_value k
        = ((ChainMap.new.push_map mapB2).push_map mapB1).get_key_value k := by
  refine ⟨by decide, by decide, by decide, ?_⟩
  intro k
  rcases k with _ | _ | n
  · exact ⟨by decide, by decide, by decide⟩
  · exact ⟨by decide, by decide, by decide⟩
  · have h0 : ¬((0 : Nat) = n + 2) := by omega
    have h1 : ¬((1 : Nat) = n + 2) := by omega
    refine ⟨?_, ?_, ?_⟩ <;>
      simp [ChainMap.new, ChainMap.default, ChainMap.push_map,
        ChainMap.contains_key, ChainMap.get, ChainMap.get_key_value,
        HashMap.contains_key, HashMap.get, HashMap.get_key_value,
        mapB1, mapB2, List.findSome?, List.find?, h0, h1]

/-- C9: `with_capacity n` is observably identical to `new()`: the two chains
are equal (capacity is a pure allocation hint), compare equal under the
chain's own equality, and answer every lookup identically. -/
theorem claim9_with_capacity [DecidableEq K] [DecidableEq V] (n : Nat) :
    (ChainMap.with_capacity n : ChainMap K V) = ChainMap.new ∧
    ChainMap.eqv (ChainMap.with_capacity n : ChainMap K V) ChainMap.new
      = true ∧
    ∀ k, (ChainMap.with_capacity n : ChainMap K V).contains_key k
           = (ChainMap.new : ChainMap K V).contains_key k ∧
         (ChainMap.with_capacity n : ChainMap K V).get k
           = (ChainMap.new : ChainMap K V).get k ∧
         (ChainMap.with_capacity n : ChainMap K V).get_key_value k
           = (ChainMap.new : ChainMap K V).get_key_value k :=
  ⟨rfl, rfl, fun _ => ⟨rfl, rfl, rfl⟩⟩

/-- C6: `get_key_value` performs the same index-0-upward precedence scan as
`get`: it returns the stored key together with the value from the first
(highest-precedence) layer containing `k`, and is absent exactly when no
layer contains the key. -/
theorem claim6_get_key_value [DecidableEq K] (c : ChainMap K V) (k : K)
    (i : Nat) (mi : HashMap K V)
    (hmi : c.inner[i]? = some mi)
    (hc : mi.contains_key k = true)
    (hmin : ∀ j mj, j < i → c.inner[j]? = some mj → mj.contains_key k = false) :
    c.get_key_value k = mi.get_key_value k ∧
    (∃ p, c.get_key_value k = some p ∧ p.1 = k ∧ mi.get k = some p.2) ∧
    (∀ c2 : ChainMap K V, ∀ k2 : K,
      (c2.get_key_value k2 = none ↔
        ∀ m ∈ c2.inner, m.contains_key k2 = false)) := by
  have hs : (mi.get_key_value k).isSome = true := by
    rw [← HashMap.contains_key_eq_isSome_get_key_value, hc]
  have he : c.get_key_value k = mi.get_key_value k := by
    rw [ChainMap.get_key_value]
    exact findSome?_eq_of_first c.inner i mi hmi
      (fun j mj hj hmj =>
        HashMap.get_key_value_eq_none_of_not_contains (hmin j mj hj hmj))
      hs
  refine ⟨he, ?_, ?_⟩
  · obtain ⟨p, hp⟩ := Option.isSome_iff_exists.mp hs
    refine ⟨p, he.trans hp, HashMap.get_key_value_fst hp, ?_⟩
    rw [HashMap.get_eq_map_get_key_value, hp]
    rfl
  · intro c2 k2
    have hcf : c2.contains_key k2 = false ↔
        ∀ m ∈ c2.inner, m.contains_key k2 = false := by
      rw [ChainMap.contains_key]
      simp [List.any_eq_false]
    constructor
    · intro hn
      apply hcf.mp
      rw [ChainMap.chain_contains_eq_isSome_get_key_value, hn]
      rfl
    · intro hall
      have hfalse := hcf.mpr hall
      rw [ChainMap.chain_contains_eq_isSome_get_key_value] at hfalse
      exact Option.not_isSome_iff_eq_none.mp (by simp [hfalse])

/-- Witness for C6 on `chainA` at key 1, resolved in the layer at index 1. -/
theorem claim6_get_key_value_witness :
    chainA.get_key_value 1 = mapA1.get_key_value 1 ∧
    (∃ p, chainA.get_key_value 1 = some p ∧ p.1 = 1 ∧ mapA1.get 1 = some p.2) ∧
    (∀ c2 : ChainMap Nat Nat, ∀ k2 : Nat,
      (c2.get_key_value k2 = none ↔
        ∀ m ∈ c2.inner, m.contains_key k2 = false)) := by
  refine claim6_get_key_value chainA 1 1 mapA1 rfl (by decide) ?hmin
  intro j mj hj hmj
  have hj0 : j = 0 := by omega
  subst hj0
  have hm : mj = mapA0 := by
    have h0 : (some mapA0 : Option (HashMap Nat Nat)) = some mj := hmj
    exact (Option.some_inj.mp h0).symm
  subst hm
  decide

/-- Pointwise reading of `List.all` over a `zip` of two equal-length lists. -/
theorem zip_all_iff {α β : Type} (f : α → β → Bool) :
    ∀ (l1 : List α) (l2 : List β), l1.length = l2.length →
      ((l1.zip l2).all (fun p => f p.1 p.2) = true ↔
        ∀ (p : Nat) (a : α) (b : β),
          l1[p]? = some a → l2[p]? = some b → f a b = true)
  | [], [], _ => by simp
  | [], _ :: _, h => by simp at h
  | _ :: _, [], h => by simp at h
  | a :: t1, b :: t2, h => by
    have ih := zip_all_iff f t1 t2 (by simpa using h)
    constructor
    · intro hall p x y hx hy
      rw [List.zip_cons_cons, List.all_cons, Bool.and_eq_true] at hall
      cases p with
      | zero =>
        rw [List.getElem?_cons_zero, Option.some_inj] at hx hy
        subst hx
        subst hy
        exact hall.1
      | succ q =>
        rw [List.getElem?_cons_succ] at hx hy
        exact (ih.mp hall.2) q x y hx hy
    · intro hp
      rw [List.zip_cons_cons, List.all_cons, Bool.and_eq_true]
      refine ⟨hp 0 a b (by simp) (by simp), ih.mpr ?_⟩
      intro q x y hx hy
      exact hp (q + 1) x y (by rwa [List.getElem?_cons_succ])
        (by rwa [List.getElem?_cons_succ])

/-- The chain comparison unfolded: equal layer counts and `HashMap` equality
at every corresponding position. -/
theorem ChainMap.eqv_true_iff [DecidableEq K] [DecidableEq V]
    (c1 c2 : ChainMap K V) :
    ChainMap.eqv c1 c2 = true ↔
      (c1.inner.length = c2.inner.length ∧
        ∀ (p : Nat) (q1 q2 : HashMap K V),
          c1.inner[p]? = some q1 → c2.inner[p]? = some q2 →
          HashMap.eqv q1 q2 = true) := by
  rw [ChainMap.eqv, Bool.and_eq_true]
  constructor
  · rintro ⟨hlen, hall⟩
    have hl : c1.inner.length = c2.inner.length := by simpa using hlen
    exact ⟨hl, fun p q1 q2 h1 h2 =>
      (zip_all_iff (fun a b => HashMap.eqv a b) c1.inner c2.inner hl).mp
        hall p q1 q2 h1 h2⟩
  · rintro ⟨hl, hp⟩
    exact ⟨by simpa using hl,
      (zip_all_iff (fun a b => HashMap.eqv a b) c1.inner c2.inner hl).mpr hp⟩

/-- Moving the element at position `m` to the front while writing `d` in its
place permutes a `d`-fronted list. -/
theorem cons_set_perm {α : Type} :
    ∀ (t : List α) (m : Nat) (c d : α), t[m]? = some c →
      List.Perm (c :: t.set m d) (d :: t)
  | [], _, _, _, h => by simp at h
  | y :: t', 0, c, d, h => by
    have hc : y = c := by simpa using h
    subst hc
    exact List.Perm.swap d y t'
  | y :: t', m' + 1, c, d, h => by
    have h' : t'[m']? = some c := by simpa using h
    have ih := cons_set_perm t' m' c d h'
    exact List.Perm.trans (List.Perm.swap y c _)
      (List.Perm.trans (List.Perm.cons y ih) (List.Perm.swap d y t'))

/-- Exchanging the contents of two positions leaves the list a permutation of
itself. -/
theorem swap_set_perm {α : Type} :
    ∀ (l : List α) (i j : Nat) (a b : α), l[i]? = some a → l[j]? = some b →
      List.Perm ((l.set i b).set j a) l
  | [], _, _, _, _, ha, _ => by simp at ha
  | x :: t, 0, 0, a, b, ha, _ => by
    have hax : x = a := by simpa using ha
    subst hax
    rw [List.set_set]
    exact List.Perm.refl _
  | x :: t, 0, j + 1, a, b, ha, hb => by
    have hax : x = a := by simpa using ha
    have hb' : t[j]? = some b := by simpa using hb
    subst hax
    exact cons_set_perm t j b x hb'
  | x :: t, i + 1, 0, a, b, ha, hb => by
    have hbx : x = b := by simpa using hb
    have ha' : t[i]? = some a := by simpa using ha
    subst hbx
    exact cons_set_perm t i a x ha'
  | x :: t, i + 1, j + 1, a, b, ha, hb => by
    have ha' : t[i]? = some a := by simpa using ha
    have hb' : t[j]? = some b := by simpa using hb
    exact List.Perm.cons x (swap_set_perm t i j a b ha' hb')

/-- C7: chains compare equal exactly when they have equally many layers that
are pairwise equal position by position; exchanging two non-equal layers
produces a chain that compares unequal to the original even though its
multiset of layers is unchanged. -/
theorem claim7_equality [DecidableEq K] [DecidableEq V]
    (c1 c2 c : ChainMap K V) (i j : Nat) (mi mj : HashMap K V)
    (hij : i ≠ j)
    (hmi : c.inner[i]? = some mi) (hmj : c.inner[j]? = some mj)
    (hne : HashMap.eqv mi mj = false) :
    (ChainMap.eqv c1 c2 = true ↔
      (c1.inner.length = c2.inner.length ∧
        ∀ (p : Nat) (q1 q2 : HashMap K V),
          c1.inner[p]? = some q1 → c2.inner[p]? = some q2 →
          HashMap.eqv q1 q2 = true)) ∧
    ChainMap.eqv c (c.swap i j) = false ∧
    Multiset.ofList (c.swap i j).inner = Multiset.ofList c.inner := by
  have hgdj : c.inner.getD j ⟨[]⟩ = mj := by
    rw [List.getD_eq_getElem?_getD, hmj]
    rfl
  have hgdi : c.inner.getD i ⟨[]⟩ = mi := by
    rw [List.getD_eq_getElem?_getD, hmi]
    rfl
  have hilen : i < c.inner.length := by
    rcases List.getElem?_eq_some_iff.mp hmi with ⟨hlt, _⟩
    exact hlt
  refine ⟨ChainMap.eqv_true_iff c1 c2, ?_, ?_⟩
  · by_contra hcontra
    rw [Bool.not_eq_false] at hcontra
    have h := (ChainMap.eqv_true_iff c (c.swap i j)).mp hcontra
    have hswapi : (c.swap i j).inner[i]? = some mj := by
      show ((c.inner.set i (c.inner.getD j ⟨[]⟩)).set j
        (c.inner.getD i ⟨[]⟩))[i]? = some mj
      rw [List.getElem?_set_ne (Ne.symm hij), hgdj,
        List.getElem?_set_self (by simpa using hilen)]
    exact absurd (h.2 i mi mj hmi hswapi) (by simp [hne])
  · have hperm : List.Perm
        ((c.inner.set i (c.inner.getD j ⟨[]⟩)).set j (c.inner.getD i ⟨[]⟩))
        c.inner := by
      rw [hgdj, hgdi]
      exact swap_set_perm c.inner i j mi mj hmi hmj
    exact Multiset.coe_eq_coe.mpr hperm

/-- Witness for C7: swapping the two distinct layers of `chainA` yields an
unequal chain with the same multiset of layers. -/
theorem claim7_equality_witness :
    (ChainMap.eqv chainA chainA = true ↔
      (chainA.inner.length = chainA.inner.length ∧
        ∀ (p : Nat) (q1 q2 : HashMap Nat Nat),
          chainA.inner[p]? = some q1 → chainA.inner[p]? = some q2 →
          HashMap.eqv q1 q2 = true)) ∧
    ChainMap.eqv chainA (chainA.swap 0 1) = false ∧
    Multiset.ofList (chainA.swap 0 1).inner = Multiset.ofList chainA.inner :=
  claim7_equality chainA chainA chainA 0 1 mapA0 mapA1 (by decide) rfl rfl
    (by decide)

/-- `getElem?` after `drop` shifts the index. -/
theorem getElem?_drop_eq {α : Type} :
    ∀ (l : List α) (i n : Nat), (l.drop i)[n]? = l[i + n]?
  | _, 0, _ => by simp
  | [], _ + 1, _ => by simp
  | _ :: t, i + 1, n => by
    simp [Nat.succ_add]

/-- C8: for `0 ≤ index ≤ length`, `insert_map` places the new layer at
`index`, keeps every earlier layer in place, and shifts every layer formerly
at or after `index` down by exactly one position, preserving relative
order. -/
theorem claim8_insert_map (c : ChainMap K V) (i : Nat) (m : HashMap K V)
    (h : i ≤ c.inner.length) :
    ∃ c', c.insert_map i m = some c' ∧
      c'.inner.length = c.inner.length + 1 ∧
      c'.inner[i]? = some m ∧
      (∀ p, p < i → c'.inner[p]? = c.inner[p]?) ∧
      (∀ p, i ≤ p → c'.inner[p + 1]? = c.inner[p]?) := by
  have hlt : (c.inner.take i).length = i := by
    rw [List.length_take]
    omega
  refine ⟨⟨c.inner.take i ++ m :: c.inner.drop i⟩, ?_, ?_, ?_, ?_, ?_⟩
  · rw [ChainMap.insert_map, if_pos h]
  · simp only [List.length_append, List.length_cons, List.length_take,
      List.length_drop]
    omega
  · rw [List.getElem?_append_right (by simp [hlt])]
    simp [hlt]
  · intro p hp
    rw [List.getElem?_append_left (by simpa [hlt] using hp)]
    exact List.getElem?_take_of_lt hp
  · intro p hip
    rw [List.getElem?_append_right (by simp [hlt]; omega)]
    have hidx : p + 1 - (c.inner.take i).length = (p - i) + 1 := by
      rw [hlt]
      omega
    rw [hidx, List.getElem?_cons_succ, getElem?_drop_eq]
    congr 1
    omega

/-- Witness for C8: inserting a layer at position 1 of the two-layer
`chainA`. -/
theorem claim8_insert_map_witness :
    ∃ c', chainA.insert_map 1 mapC2 = some c' ∧
      c'.inner.length = chainA.inner.length + 1 ∧
      c'.inner[1]? = some mapC2 ∧
      (∀ p, p < 1 → c'.inner[p]? = chainA.inner[p]?) ∧
      (∀ p, 1 ≤ p → c'.inner[p + 1]? = chainA.inner[p]?) :=
  claim8_insert_map chainA 1 mapC2 (by decide)

/-- C10: the chain membership test and the chain value lookup always agree:
`contains_key k` is true exactly when `get k` returns some value. -/
theorem claim10_contains_iff_get [DecidableEq K] (c : ChainMap K V) (k : K) :
    c.contains_key k = true ↔ (c.get k).isSome = true := by
  rw [ChainMap.chain_contains_eq_isSome_get]

end ChainMapRs
